import Mathlib

/-
Verification of the agentic-memory core of the semantic-router repository.

The Go sources are shallowly embedded as executable Lean definitions:
  * the memory decision filter (pkg/extproc/req_filter_memory.go),
  * the Milvus-backed retrieval with threshold filtering and retry
    (pkg/memory/milvus_store.go) and the streaming Milvus store,
  * the LLM fact extractor and its response parsing (memory extractor).
Strings are modelled as lists of characters; the float32 similarity scores of
the Go code are modelled as exact rationals (the claims under study are purely
order-theoretic, so exact comparison is faithful).
-/

namespace SemanticRouter

/-! ### Character and string helpers (Go semantics) -/

/-- The backtick character, written by code point to keep the development
plain ASCII-safe. -/
def backtickChar : Char := Char.ofNat 96

/-- The apostrophe character, written by code point. -/
def aposChar : Char := Char.ofNat 39

/-- Whitespace as matched by Go regexp class backslash-s: tab, newline,
form feed, carriage return, space. `strings.TrimSpace` is modelled with the
same set (the inputs in scope are ASCII). -/
def isSpaceGo (c : Char) : Bool :=
  c = ' ' || c = '\t' || c = '\n' || c = '\u000C' || c = '\r'

/-- ASCII word character, as used by the regexp word boundary: letters,
digits, underscore. -/
def isWordChar (c : Char) : Bool :=
  c.isAlpha || c.isDigit || c = '_'

/-- Lowercase every character (ASCII case folding, as in the inputs in
scope for `strings.ToLower` and the case-insensitive regexp flag). -/
def lowerStr (s : List Char) : List Char := s.map Char.toLower

/-- `strings.TrimSpace`: drop whitespace from both ends. -/
def trimSpaceL (s : List Char) : List Char :=
  ((s.dropWhile isSpaceGo).reverse.dropWhile isSpaceGo).reverse

/-- Length of the initial run of characters satisfying `p`. -/
def countWhile (p : Char → Bool) (s : List Char) : Nat :=
  (s.takeWhile p).length

/-- Does `pat` occur starting at index `i` of `s`? -/
def isPrefixAt (s : List Char) (i : Nat) (pat : List Char) : Bool :=
  pat.isPrefixOf (s.drop i)

/-- Does `pat` occur anywhere in `s` (as `strings.Contains`)? -/
def containsSubstring (s pat : List Char) : Bool :=
  (List.range (s.length + 1)).any (fun i => isPrefixAt s i pat)

/-- Decidable equality of fallible results, so that concrete runs of the
embedded operations can be checked by evaluation. -/
instance {ε α : Type} [DecidableEq ε] [DecidableEq α] : DecidableEq (Except ε α) := fun x y =>
  match x, y with
  | .ok a, .ok b =>
      if h : a = b then .isTrue (by rw [h]) else .isFalse (by simp [h])
  | .error a, .error b =>
      if h : a = b then .isTrue (by rw [h]) else .isFalse (by simp [h])
  | .ok _, .error _ => .isFalse (by simp)
  | .error _, .ok _ => .isFalse (by simp)

/-! ### Memory decision filter (req_filter_memory.go)

`personalPronounPattern` in the source is the regular expression
`(?i)\b(my|i|me|mine|i'm|i've|i'll|i'd|myself)\b` used through
`MatchString`.  `MatchString` on this pattern holds exactly when some
alternative occurs in the query, case-insensitively, with a word boundary
on each side; the embedding below states that semantics directly. -/

/-- The alternatives of `personalPronounPattern`.  The contractions carry
the apostrophe character. -/
def personalPronouns : List (List Char) :=
  [ "my".data
  , "i".data
  , "me".data
  , "mine".data
  , ['i', aposChar, 'm']
  , ['i', aposChar, 'v', 'e']
  , ['i', aposChar, 'l', 'l']
  , ['i', aposChar, 'd']
  , "myself".data ]

/-- `pat` matches at index `i` of `s`, case-insensitively. -/
def matchCIAt (s : List Char) (i : Nat) (pat : List Char) : Bool :=
  lowerStr ((s.drop i).take pat.length) = pat

/-- `pat` matches at index `i` with a regexp word boundary on each side:
the character before (if any) and the character after the match (if any)
are not word characters. -/
def wordMatchAt (s : List Char) (i : Nat) (pat : List Char) : Bool :=
  matchCIAt s i pat
    && (i = 0 || !isWordChar (s.getD (i - 1) ' '))
    && (i + pat.length = s.length || !isWordChar (s.getD (i + pat.length) ' '))

/-- Some pattern of `pats` occurs somewhere in `s` as a whole word. -/
def containsWordCI (s : List Char) (pats : List (List Char)) : Bool :=
  (List.range s.length).any (fun i => pats.any (fun p => wordMatchAt s i p))

/-- `ContainsPersonalPronoun` from req_filter_memory.go:
`personalPronounPattern.MatchString(query)`. -/
def ContainsPersonalPronoun (query : String) : Bool :=
  containsWordCI query.data personalPronouns

/-! A small regular-expression core (Brzozowski derivatives) used to embed
the anchored greeting patterns of the source verbatim. -/

/-- Regular expressions over characters; `pred` is a character class. -/
inductive Rx where
  | eps : Rx
  | pred : (Char → Bool) → Rx
  | seq : Rx → Rx → Rx
  | alt : Rx → Rx → Rx
  | star : Rx → Rx

/-- The empty character class, i.e. the regex matching nothing. -/
def Rx.void : Rx := .pred (fun _ => false)

/-- Does the regex accept the empty string? -/
def Rx.nullable : Rx → Bool
  | .eps => true
  | .pred _ => false
  | .seq a b => a.nullable && b.nullable
  | .alt a b => a.nullable || b.nullable
  | .star _ => true

/-- Brzozowski derivative with respect to one character. -/
def Rx.deriv : Rx → Char → Rx
  | .eps, _ => .void
  | .pred p, c => if p c then .eps else .void
  | .seq a b, c =>
      if a.nullable then .alt (.seq (a.deriv c) b) (b.deriv c)
      else .seq (a.deriv c) b
  | .alt a b, c => .alt (a.deriv c) (b.deriv c)
  | .star a, c => .seq (a.deriv c) (.star a)

/-- Full (anchored) match of a regex against a character list. -/
def Rx.matchL (r : Rx) (s : List Char) : Bool :=
  (s.foldl Rx.deriv r).nullable

/-- A literal character, compared case-insensitively (the source patterns
all carry the case-insensitive flag). -/
def Rx.chr (c : Char) : Rx := .pred (fun x => x.toLower = c)

/-- A literal word, case-insensitively. -/
def Rx.str (w : List Char) : Rx :=
  w.foldr (fun c r => Rx.seq (Rx.chr c) r) Rx.eps

/-- Zero-or-one. -/
def Rx.opt (r : Rx) : Rx := .alt r .eps

/-- One-or-more. -/
def Rx.plus (r : Rx) : Rx := .seq r (.star r)

/-- Alternation of a list of regexes. -/
def Rx.alts (l : List Rx) : Rx := l.foldr Rx.alt Rx.void

/-- The class backslash-s of the Go patterns. -/
def rxSpace : Rx := .pred isSpaceGo

/-- The trailing class of most greeting patterns: whitespace, bang,
period, comma, starred. -/
def rxEndPunct : Rx :=
  .star (.pred (fun c => isSpaceGo c || c = '!' || c = '.' || c = ','))

/-- The trailing class of the informal-hail pattern, which also allows a
question mark. -/
def rxEndPunctQ : Rx :=
  .star (.pred (fun c => isSpaceGo c || c = '!' || c = '?' || c = '.' || c = ','))

/-- `greetingPatterns` from req_filter_memory.go, one Lean regex per source
regex, in source order. -/
def greetingPatterns : List Rx :=
  [ -- (?i)^(hi|hello|hey|howdy)[\s\!\.\,]*$
    .seq (Rx.alts [Rx.str "hi".data, Rx.str "hello".data, Rx.str "hey".data,
        Rx.str "howdy".data]) rxEndPunct
  , -- (?i)^(hi|hello|hey)[\s\,]*(there)?[\s\!\.\,]*$
    .seq (Rx.alts [Rx.str "hi".data, Rx.str "hello".data, Rx.str "hey".data])
      (.seq (.star (.pred (fun c => isSpaceGo c || c = ',')))
        (.seq (Rx.opt (Rx.str "there".data)) rxEndPunct))
  , -- (?i)^(good\s+)?(morning|afternoon|evening|night)[\s\!\.\,]*$
    .seq (Rx.opt (.seq (Rx.str "good".data) (Rx.plus rxSpace)))
      (.seq (Rx.alts [Rx.str "morning".data, Rx.str "afternoon".data,
          Rx.str "evening".data, Rx.str "night".data]) rxEndPunct)
  , -- (?i)^(thanks|thank\s+you|thx)[\s\!\.\,]*$
    .seq (Rx.alts [Rx.str "thanks".data,
        .seq (Rx.str "thank".data) (.seq (Rx.plus rxSpace) (Rx.str "you".data)),
        Rx.str "thx".data]) rxEndPunct
  , -- (?i)^(bye|goodbye|see\s+you|later)[\s\!\.\,]*$
    .seq (Rx.alts [Rx.str "bye".data, Rx.str "goodbye".data,
        .seq (Rx.str "see".data) (.seq (Rx.plus rxSpace) (Rx.str "you".data)),
        Rx.str "later".data]) rxEndPunct
  , -- (?i)^(ok|okay|sure|yes|no|yep|nope)[\s\!\.\,]*$
    .seq (Rx.alts [Rx.str "ok".data, Rx.str "okay".data, Rx.str "sure".data,
        Rx.str "yes".data, Rx.str "no".data, Rx.str "yep".data,
        Rx.str "nope".data]) rxEndPunct
  , -- (?i)^(what'?s?\s+up|sup|yo)[\s\!\?\.\,]*$
    .seq (Rx.alts
        [ .seq (Rx.str "what".data)
            (.seq (Rx.opt (Rx.chr aposChar))
              (.seq (Rx.opt (Rx.chr 's'))
                (.seq (Rx.plus rxSpace) (Rx.str "up".data))))
        , Rx.str "sup".data
        , Rx.str "yo".data ]) rxEndPunctQ ]

/-- `IsGreeting` from req_filter_memory.go: trim, reject anything longer
than 25 characters, then try every anchored greeting pattern. -/
def IsGreeting (query : String) : Bool :=
  let trimmed := trimSpaceL query.data
  if trimmed.length > 25 then false
  else greetingPatterns.any (fun p => p.matchL trimmed)

/-- The pipeline classification signals consumed by the decision filter. -/
structure RequestContext where
  FactCheckNeeded : Bool
  HasToolsForFactCheck : Bool

/-- `ShouldSearchMemory` from req_filter_memory.go: the ordered decision
cascade over the pipeline flags and the query text. -/
def ShouldSearchMemory (ctx : RequestContext) (query : String) : Bool :=
  let hasPersonalIndicator := ContainsPersonalPronoun query
  if ctx.FactCheckNeeded && !hasPersonalIndicator then false
  else if ctx.HasToolsForFactCheck then false
  else if IsGreeting query then false
  else true

/-! ### Retry with exponential backoff (milvus_store.go) -/

/-- `DefaultMaxRetries` from milvus_store.go. -/
def DefaultMaxRetries : Nat := 3

/-- `DefaultRetryBaseDelay` from milvus_store.go, in milliseconds. -/
def DefaultRetryBaseDelay : Nat := 100

/-- The transient error patterns of `isTransientError`, in source order. -/
def transientPatterns : List String :=
  [ "connection"
  , "timeout"
  , "deadline exceeded"
  , "context deadline exceeded"
  , "unavailable"
  , "temporary"
  , "retry"
  , "rate limit"
  , "too many requests"
  , "server error"
  , "internal error"
  , "service unavailable"
  , "network"
  , "broken pipe"
  , "connection reset"
  , "no connection"
  , "connection refused" ]

/-- `isTransientError` from milvus_store.go: lowercase the error text and
look for any of the transient patterns as a substring. -/
def isTransientError (errMsg : String) : Bool :=
  transientPatterns.any (fun p => containsSubstring (lowerStr errMsg.data) p.data)

/-- Outcome of `retryWithBackoff`: success, the operation error, or the
context-cancellation error built inside the select. -/
inductive RetryOutcome where
  | ok : RetryOutcome
  | failed : String → RetryOutcome
  | cancelled : String → RetryOutcome
deriving DecidableEq

/-- A run of `retryWithBackoff`: its outcome, how many times the wrapped
operation was invoked, and the backoff delays actually waited (ms). -/
structure RetryTrace where
  outcome : RetryOutcome
  invocations : Nat
  delays : List Nat
deriving DecidableEq

/-- The loop body of `retryWithBackoff`.  `op i` is the error (if any) of
the i-th invocation of the wrapped operation, `ctxDone i` whether the
ambient context is found cancelled during the backoff wait after attempt
`i`, and `ctxErr` the context error text.  `remaining` counts the loop
iterations left (`maxRetries - attempt`), making the recursion
structural. -/
def retryLoop (op : Nat → Option String) (ctxDone : Nat → Bool) (ctxErr : String)
    (baseDelay : Nat) :
    Nat → Nat → Option String → Nat → List Nat → RetryTrace
  | 0, _, lastErr, inv, delays =>
      -- loop exhausted: return lastErr (nil means success)
      match lastErr with
      | none => ⟨.ok, inv, delays⟩
      | some e => ⟨.failed e, inv, delays⟩
  | remaining + 1, attempt, _, inv, delays =>
      match op attempt with
      | none => ⟨.ok, inv + 1, delays⟩
      | some e =>
        if !isTransientError e then ⟨.failed e, inv + 1, delays⟩
        else if remaining = 0 then
          -- last attempt: return the error without waiting
          ⟨.failed e, inv + 1, delays⟩
        else
          let delay := baseDelay * 2 ^ attempt
          if ctxDone attempt then
            ⟨.cancelled ("context cancelled during retry: " ++ ctxErr), inv + 1, delays⟩
          else
            retryLoop op ctxDone ctxErr baseDelay remaining (attempt + 1) (some e)
              (inv + 1) (delays ++ [delay])

/-- `retryWithBackoff` from milvus_store.go, instrumented with the
invocation count and the waited delays. -/
def retryWithBackoff (op : Nat → Option String) (ctxDone : Nat → Bool)
    (ctxErr : String) (maxRetries baseDelay : Nat) : RetryTrace :=
  retryLoop op ctxDone ctxErr baseDelay maxRetries 0 none 0 []

/-! ### Theorems: decision filter -/

/-- Claim C3: `ShouldSearchMemory` evaluates its rules in order with first
match winning — it returns false when `FactCheckNeeded` is set and the
query has no personal-pronoun indicator; otherwise false when
`HasToolsForFactCheck` is set; otherwise false when the query is a
standalone greeting; otherwise true.  The ordered cascade is equivalent to
this Boolean normal form. -/
theorem shouldSearchMemory_rule_order (ctx : RequestContext) (q : String) :
    ShouldSearchMemory ctx q =
      (!(ctx.FactCheckNeeded && !ContainsPersonalPronoun q)
        && !ctx.HasToolsForFactCheck && !IsGreeting q) := by
  unfold ShouldSearchMemory
  cases h1 : ctx.FactCheckNeeded && !ContainsPersonalPronoun q <;>
    cases h2 : ctx.HasToolsForFactCheck <;>
    cases h3 : IsGreeting q <;> simp [h1, h2, h3]

/-- Claim C9: `ContainsPersonalPronoun` matches case-insensitively and
only on whole words, as witnessed by the documented cases — a real
personal question matches, while a general-knowledge question and the
substring-only cases mythology, Myanmar and AI do not. -/
theorem containsPersonalPronoun_cases :
    ContainsPersonalPronoun "What is my budget?" = true
      ∧ ContainsPersonalPronoun "What is the capital of France?" = false
      ∧ ContainsPersonalPronoun "mythology" = false
      ∧ ContainsPersonalPronoun "Myanmar" = false
      ∧ ContainsPersonalPronoun "AI" = false := by decide

/-! ### Theorems: retry policy -/

/-- Claim C5: with the default `MAX_RETRIES = 3`, (a) a search whose every
attempt fails with transient error text invokes the underlying RPC exactly
three times, waits twice, and returns the last error; (b) an error
matching none of the transient patterns is returned immediately after a
single attempt; (c) cancellation of the ambient context during the first
backoff wait aborts the loop after a single attempt and surfaces a
cancellation error. -/
theorem retryWithBackoff_transient_policy (op : Nat → Option String)
    (cd : Nat → Bool) (ce : String) (e0 e1 e2 : String) :
    ((op 0 = some e0 ∧ op 1 = some e1 ∧ op 2 = some e2
        ∧ isTransientError e0 = true ∧ isTransientError e1 = true
        ∧ isTransientError e2 = true ∧ cd 0 = false ∧ cd 1 = false) →
      retryWithBackoff op cd ce DefaultMaxRetries DefaultRetryBaseDelay =
        ⟨.failed e2, 3, [100, 200]⟩)
    ∧ ((op 0 = some e0 ∧ isTransientError e0 = false) →
      retryWithBackoff op cd ce DefaultMaxRetries DefaultRetryBaseDelay =
        ⟨.failed e0, 1, []⟩)
    ∧ ((op 0 = some e0 ∧ isTransientError e0 = true ∧ cd 0 = true) →
      retryWithBackoff op cd ce DefaultMaxRetries DefaultRetryBaseDelay =
        ⟨.cancelled ("context cancelled during retry: " ++ ce), 1, []⟩) := by
  refine ⟨?_, ?_, ?_⟩
  · rintro ⟨h0, h1, h2, t0, t1, t2, c0, c1⟩
    simp [retryWithBackoff, retryLoop, DefaultMaxRetries, DefaultRetryBaseDelay,
      h0, h1, h2, t0, t1, t2, c0, c1]
  · rintro ⟨h0, t0⟩
    simp [retryWithBackoff, retryLoop, DefaultMaxRetries, DefaultRetryBaseDelay, h0, t0]
  · rintro ⟨h0, t0, c0⟩
    simp [retryWithBackoff, retryLoop, DefaultMaxRetries, DefaultRetryBaseDelay, h0, t0, c0]

/-- Witness for claim C5, instantiating the three scenarios at concrete
operations: a persistently refused connection, a non-transient schema
error, and a cancelled context. -/
theorem retryWithBackoff_transient_policy_witness :
    retryWithBackoff (fun _ => some "connection refused") (fun _ => false)
        "context canceled" DefaultMaxRetries DefaultRetryBaseDelay =
      ⟨.failed "connection refused", 3, [100, 200]⟩
    ∧ retryWithBackoff (fun _ => some "schema mismatch") (fun _ => false)
        "context canceled" DefaultMaxRetries DefaultRetryBaseDelay =
      ⟨.failed "schema mismatch", 1, []⟩
    ∧ retryWithBackoff (fun _ => some "connection refused") (fun _ => true)
        "context canceled" DefaultMaxRetries DefaultRetryBaseDelay =
      ⟨.cancelled ("context cancelled during retry: " ++ "context canceled"), 1, []⟩ :=
  ⟨(retryWithBackoff_transient_policy (fun _ => some "connection refused")
      (fun _ => false) "context canceled" "connection refused" "connection refused"
      "connection refused").1
    ⟨rfl, rfl, rfl, by decide, by decide, by decide, rfl, rfl⟩,
   (retryWithBackoff_transient_policy (fun _ => some "schema mismatch")
      (fun _ => false) "context canceled" "schema mismatch" "" "").2.1
    ⟨rfl, by decide⟩,
   (retryWithBackoff_transient_policy (fun _ => some "connection refused")
      (fun _ => true) "context canceled" "connection refused" "" "").2.2
    ⟨rfl, by decide, rfl⟩⟩

/-- Counterexample to claim C8: in the worst case (every attempt fails
with transient error text) the run with the default parameters waits a
total of 100 + 200 = 300 ms of backoff, not the 700 ms stated. -/
theorem retryWithBackoff_total_backoff_counterexample :
    (retryWithBackoff (fun _ => some "timeout") (fun _ => false) "context canceled"
        DefaultMaxRetries DefaultRetryBaseDelay).delays.sum = 300
      ∧ (300 : Nat) ≠ 700 := by decide

/-- Claim C8 as amended: the backoff delay waited after attempt `i` equals
`BASE_DELAY * 2 ^ i`, and backoff only happens between attempts — after
attempts 0 and 1 of the three — so the worst-case total backoff of a
single search is `BASE_DELAY * (1 + 2) = 300` ms for `BASE_DELAY = 100`,
in addition to the three RPC attempts. -/
theorem retryWithBackoff_backoff_delays (op : Nat → Option String)
    (cd : Nat → Bool) (ce : String) (b : Nat) (e0 e1 e2 : String)
    (h0 : op 0 = some e0) (h1 : op 1 = some e1) (h2 : op 2 = some e2)
    (t0 : isTransientError e0 = true) (t1 : isTransientError e1 = true)
    (t2 : isTransientError e2 = true) (c0 : cd 0 = false) (c1 : cd 1 = false) :
    (retryWithBackoff op cd ce DefaultMaxRetries b).delays =
        [b * 2 ^ 0, b * 2 ^ 1]
      ∧ (retryWithBackoff op cd ce DefaultMaxRetries b).invocations = DefaultMaxRetries
      ∧ (retryWithBackoff op cd ce DefaultMaxRetries b).delays.sum = 3 * b := by
  have hrun : retryWithBackoff op cd ce DefaultMaxRetries b =
      ⟨.failed e2, 3, [b * 2 ^ 0, b * 2 ^ 1]⟩ := by
    simp [retryWithBackoff, retryLoop, DefaultMaxRetries, h0, h1, h2, t0, t1, t2, c0, c1]
  rw [hrun]
  refine ⟨rfl, rfl, ?_⟩
  simp [List.sum_cons]
  ring

/-- Witness for the amended claim C8 at the default base delay and a
persistently timing-out operation. -/
theorem retryWithBackoff_backoff_delays_witness :
    (retryWithBackoff (fun _ => some "timeout") (fun _ => false) "context canceled"
        DefaultMaxRetries 100).delays = [100 * 2 ^ 0, 100 * 2 ^ 1]
      ∧ (retryWithBackoff (fun _ => some "timeout") (fun _ => false) "context canceled"
        DefaultMaxRetries 100).invocations = DefaultMaxRetries
      ∧ (retryWithBackoff (fun _ => some "timeout") (fun _ => false) "context canceled"
        DefaultMaxRetries 100).delays.sum = 3 * 100 :=
  retryWithBackoff_backoff_delays (fun _ => some "timeout") (fun _ => false)
    "context canceled" 100 "timeout" "timeout" "timeout" rfl rfl rfl
    (by decide) (by decide) (by decide) rfl rfl

/-! ### Milvus search filters (milvus_store.go Retrieve and the streaming
store Retrieve)

Both `Retrieve` implementations build a Milvus boolean filter expression
as a string.  The expression is embedded as a syntax tree with the same
shape as the built string, together with its evaluation on a stored row. -/

/-- Options of a retrieval; `Limit` and `Threshold` keep the Go integer
and float semantics (zero or negative means use the configured default). -/
structure RetrieveOptions where
  Query : String := ""
  UserID : String := ""
  ProjectID : String := ""
  Types : List String := []
  Limit : Int := 0
  Threshold : ℚ := 0

/-- A Milvus filter expression, mirroring the string built by the Go code. -/
inductive FilterExpr where
  | userEq : String → FilterExpr
  | projEq : String → FilterExpr
  | typeEq : String → FilterExpr
  | and : FilterExpr → FilterExpr → FilterExpr
  | or : FilterExpr → FilterExpr → FilterExpr

/-- The scalar columns of a stored memory row that filters consult. -/
structure Row where
  userId : String
  projectId : String
  memType : String

/-- Evaluation of a filter expression on a row (Milvus semantics of
equality, conjunction and disjunction). -/
def evalFilter : FilterExpr → Row → Bool
  | .userEq u, r => r.userId == u
  | .projEq p, r => r.projectId == p
  | .typeEq t, r => r.memType == t
  | .and a b, r => evalFilter a r && evalFilter b r
  | .or a b, r => evalFilter a r || evalFilter b r

/-- The or-chain over memory types both stores build when `Types` is
non-empty (left-associated, in list order). -/
def typesFilter : List String → Option FilterExpr
  | [] => none
  | t :: ts => some (ts.foldl (fun acc t2 => FilterExpr.or acc (.typeEq t2)) (.typeEq t))

/-- The filter expression built by `Retrieve` in milvus_store.go
(lines 135-151): `user_id == U`, conjoined with the or-chain over
`opts.Types` when present.  `opts.ProjectID` is not consulted. -/
def milvusThresholdFilter (opts : RetrieveOptions) : FilterExpr :=
  match typesFilter opts.Types with
  | none => .userEq opts.UserID
  | some tf => .and (.userEq opts.UserID) tf

/-- The filter expression built by `Retrieve` of the streaming Milvus
store (lines 279-293): `user_id == U`, conjoined with `project_id == P`
when `ProjectID` is non-empty, conjoined with the or-chain over `Types`
when present. -/
def milvusStreamFilter (opts : RetrieveOptions) : FilterExpr :=
  let f := FilterExpr.userEq opts.UserID
  let f := if opts.ProjectID ≠ "" then FilterExpr.and f (.projEq opts.ProjectID) else f
  match typesFilter opts.Types with
  | none => f
  | some tf => .and f tf

/-- Modelled from the spec wording of the claim: the search filter is the
conjunction of `user_id == B` with the optional project and type
predicates. -/
def claimedFilter (opts : RetrieveOptions) : FilterExpr :=
  let f := FilterExpr.userEq opts.UserID
  let f := if opts.ProjectID ≠ "" then FilterExpr.and f (.projEq opts.ProjectID) else f
  match typesFilter opts.Types with
  | none => f
  | some tf => .and f tf

/-! ### Threshold-filtering retrieval (milvus_store.go Retrieve,
lines 85-282)

The backend search response is modelled as a list of scored hits carrying
the output columns the code extracts (`id`, `content`, `memory_type`,
`metadata`); a missing or empty column value is the empty string.  The
JSON inflation of the metadata column is carried as the raw column text
(no claim under study depends on the inflated map). -/

/-- One hit of the Milvus search response, in backend order. -/
structure SearchHit where
  score : ℚ
  id : String
  content : String
  memType : String
  metadata : String

/-- A retrieval result as assembled by milvus_store.go.  The source field
`Type` is rendered `Typ` because `Type` is a Lean keyword. -/
structure RetrieveResult where
  ID : String
  Content : String
  Typ : String
  Similarity : ℚ
  metadataRaw : String
deriving DecidableEq

/-- The memory configuration fields consulted by Retrieve. -/
structure MemoryConfig where
  DefaultRetrievalLimit : Int
  DefaultSimilarityThreshold : ℚ

/-- `DefaultMemoryConfig` from types.go (threshold 0.6, written as the
exact rational `mkRat 6 10` so that concrete runs evaluate). -/
def DefaultMemoryConfig : MemoryConfig :=
  { DefaultRetrievalLimit := 5, DefaultSimilarityThreshold := mkRat 6 10 }

/-- The result row assembled from a hit. -/
def mkRetrieveResult (h : SearchHit) : RetrieveResult :=
  { ID := h.id, Content := h.content, Typ := h.memType,
    Similarity := h.score, metadataRaw := h.metadata }

/-- The result-collection loop of Retrieve (lines 213-276): walk the hits
in backend order while fewer than `limit` results are collected, skip
hits below the threshold, and keep a hit only when both its id and its
content are non-empty. -/
def processHits (limit : Nat) (threshold : ℚ) :
    List SearchHit → List RetrieveResult → List RetrieveResult
  | [], acc => acc
  | h :: rest, acc =>
    if limit ≤ acc.length then acc
    else if h.score < threshold then processHits limit threshold rest acc
    else if h.id ≠ "" ∧ h.content ≠ "" then
      processHits limit threshold rest (acc ++ [mkRetrieveResult h])
    else processHits limit threshold rest acc

/-- `Retrieve` of milvus_store.go on a given backend response: apply the
default limit and threshold when the caller passes zero or negative
values, validate the query and user id, and run the collection loop. -/
def retrieveThreshold (cfg : MemoryConfig) (opts : RetrieveOptions)
    (hits : List SearchHit) : Except String (List RetrieveResult) :=
  let limit := if opts.Limit ≤ 0 then cfg.DefaultRetrievalLimit else opts.Limit
  let threshold := if opts.Threshold ≤ 0 then cfg.DefaultSimilarityThreshold else opts.Threshold
  if opts.Query = "" then .error "Query is required"
  else if opts.UserID = "" then .error "User id is required"
  else .ok (processHits limit.toNat threshold hits [])

/-! ### Streaming-store retrieval (streaming Milvus store Retrieve,
lines 264-389) -/

/-- One hit of the streaming store search, carrying all output columns. -/
structure StreamHit where
  score : ℚ
  id : String
  userId : String
  projectId : String
  memType : String
  content : String
  importance : ℚ
  createdAt : Int

/-- The Memory fields the streaming Retrieve loop fills in. -/
structure MemoryRec where
  id : String
  userId : String
  projectId : String
  memType : String
  content : String
  importance : ℚ
  createdAt : Int
deriving DecidableEq

/-- A streaming-store retrieval result: the memory and its relevance. -/
structure StreamResult where
  memory : MemoryRec
  relevance : ℚ
deriving DecidableEq

/-- The configuration fields of the streaming Milvus store consulted by
Retrieve. -/
structure MilvusStoreConfig where
  SimilarityThreshold : ℚ
  TopK : Int

/-- The memory record assembled from a streaming hit. -/
def mkStreamResult (h : StreamHit) : StreamResult :=
  { memory :=
      { id := h.id, userId := h.userId, projectId := h.projectId,
        memType := h.memType, content := h.content, importance := h.importance,
        createdAt := h.createdAt },
    relevance := h.score }

/-- The result loop of the streaming Retrieve: keep every hit at or above
the threshold, in backend order (no sorting, no trimming and no
tie-breaking are performed). -/
def streamLoop (threshold : ℚ) : List StreamHit → List StreamResult
  | [] => []
  | h :: rest =>
    if h.score < threshold then streamLoop threshold rest
    else mkStreamResult h :: streamLoop threshold rest

/-- `Retrieve` of the streaming Milvus store on a given backend response:
validate the user id, resolve the effective threshold (configured default
when the caller passes zero or negative) and run the loop. -/
def retrieveStream (cfg : MilvusStoreConfig) (opts : RetrieveOptions)
    (hits : List StreamHit) : Except String (List StreamResult) :=
  if opts.UserID = "" then .error "user_id is required"
  else
    let threshold := if opts.Threshold ≤ 0 then cfg.SimilarityThreshold else opts.Threshold
    .ok (streamLoop threshold hits)

/-- The `topK` the streaming Retrieve requests from the backend Search
RPC: the caller's limit, or the configured `TopK` when it is zero or
negative.  The backend returns at most this many hits, which is the only
limit the streaming store applies (it does not trim after threshold
filtering). -/
def streamTopK (cfg : MilvusStoreConfig) (opts : RetrieveOptions) : Int :=
  if opts.Limit ≤ 0 then cfg.TopK else opts.Limit

/-- The filter columns of a streaming hit, for relating the backend
response to the filter expression the search was issued with. -/
def rowOfStreamHit (h : StreamHit) : Row :=
  { userId := h.userId, projectId := h.projectId, memType := h.memType }

/-! ### Characterisation of the collection loop -/

/-- The condition under which the collection loop keeps a hit: at or above
the threshold, and both id and content non-empty. -/
def goodHit (threshold : ℚ) (h : SearchHit) : Bool :=
  !decide (h.score < threshold) && decide (h.id ≠ "" ∧ h.content ≠ "")

lemma processHits_eq (limit : Nat) (θ : ℚ) (hits : List SearchHit) :
    ∀ acc : List RetrieveResult,
      processHits limit θ hits acc =
        acc ++ ((hits.filter (goodHit θ)).take (limit - acc.length)).map mkRetrieveResult := by
  induction hits with
  | nil => intro acc; simp [processHits]
  | cons h rest ih =>
    intro acc
    by_cases hl : limit ≤ acc.length
    · rw [processHits]
      simp [hl, Nat.sub_eq_zero_of_le hl]
    · by_cases hs : h.score < θ
      · have hg : goodHit θ h = false := by simp [goodHit, hs]
        rw [processHits]
        simp only [if_neg hl, if_pos hs]
        rw [ih acc, List.filter_cons, hg]
        simp
      · by_cases hic : h.id ≠ "" ∧ h.content ≠ ""
        · have hg : goodHit θ h = true := by simp [goodHit, hs, hic.1, hic.2]
          rw [processHits]
          simp only [if_neg hl, if_neg hs, if_pos hic]
          rw [ih (acc ++ [mkRetrieveResult h]), List.filter_cons, hg]
          have hlen : limit - acc.length = (limit - (acc.length + 1)) + 1 := by omega
          simp [hlen, List.take_succ_cons]
        · have hg : goodHit θ h = false := by
            simp only [goodHit, Bool.and_eq_false_iff, decide_eq_false_iff_not]
            exact Or.inr hic
          rw [processHits]
          simp only [if_neg hl, if_neg hs, if_neg hic]
          rw [ih acc, List.filter_cons, hg]
          simp

lemma retrieveThreshold_ok_eq (cfg : MemoryConfig) (opts : RetrieveOptions)
    (hits : List SearchHit) (res : List RetrieveResult)
    (hok : retrieveThreshold cfg opts hits = .ok res) :
    res = processHits
      (if opts.Limit ≤ 0 then cfg.DefaultRetrievalLimit else opts.Limit).toNat
      (if opts.Threshold ≤ 0 then cfg.DefaultSimilarityThreshold else opts.Threshold)
      hits [] := by
  unfold retrieveThreshold at hok
  by_cases hq : opts.Query = ""
  · simp [hq] at hok
  · by_cases hu : opts.UserID = ""
    · simp [hq, hu] at hok
    · simp only [if_neg hq, if_neg hu, Except.ok.injEq] at hok
      exact hok.symm

/-- Every row admitted by the milvus_store.go filter carries the
requested user id. -/
lemma thresholdFilter_user (opts : RetrieveOptions) (r : Row)
    (h : evalFilter (milvusThresholdFilter opts) r = true) :
    r.userId = opts.UserID := by
  unfold milvusThresholdFilter at h
  rcases hT : typesFilter opts.Types with _ | tf <;> rw [hT] at h <;>
    simp [evalFilter] at h <;> tauto

/-- Every row admitted by the streaming-store filter carries the
requested user id. -/
lemma streamFilter_user (opts : RetrieveOptions) (r : Row)
    (h : evalFilter (milvusStreamFilter opts) r = true) :
    r.userId = opts.UserID := by
  unfold milvusStreamFilter at h
  rcases hT : typesFilter opts.Types with _ | tf <;> rw [hT] at h <;>
    by_cases hp : opts.ProjectID ≠ "" <;> simp [hp, evalFilter] at h <;> tauto

/-- Every element of the streaming loop output comes from a hit of the
backend response. -/
lemma mem_streamLoop (θ : ℚ) (hits : List StreamHit) (x : StreamResult)
    (hx : x ∈ streamLoop θ hits) : ∃ h ∈ hits, x = mkStreamResult h := by
  induction hits with
  | nil => simp [streamLoop] at hx
  | cons h rest ih =>
    rw [streamLoop] at hx
    by_cases hs : h.score < θ
    · rw [if_pos hs] at hx
      obtain ⟨h', hh', hx'⟩ := ih hx
      exact ⟨h', List.mem_cons_of_mem _ hh', hx'⟩
    · rw [if_neg hs] at hx
      rcases List.mem_cons.mp hx with hx' | hx'
      · exact ⟨h, List.mem_cons_self _ _, hx'⟩
      · obtain ⟨h', hh', hx''⟩ := ih hx'
        exact ⟨h', List.mem_cons_of_mem _ hh', hx''⟩

lemma retrieveStream_ok_eq (cfg : MilvusStoreConfig) (opts : RetrieveOptions)
    (hits : List StreamHit) (res : List StreamResult)
    (hok : retrieveStream cfg opts hits = .ok res) :
    res = streamLoop (if opts.Threshold ≤ 0 then cfg.SimilarityThreshold else opts.Threshold)
      hits := by
  unfold retrieveStream at hok
  by_cases hu : opts.UserID = ""
  · simp [hu] at hok
  · simp only [if_neg hu, Except.ok.injEq] at hok
    exact hok.symm

/-- The streaming result loop is the threshold filter followed by the
result constructor, in backend order. -/
lemma streamLoop_eq (θ : ℚ) (hits : List StreamHit) :
    streamLoop θ hits =
      (hits.filter (fun h => !decide (h.score < θ))).map mkStreamResult := by
  induction hits with
  | nil => rfl
  | cons h rest ih =>
    rw [streamLoop, List.filter_cons]
    by_cases hs : h.score < θ
    · simp [hs, ih]
    · simp [hs, ih]

/-! ### Theorems: user isolation and filter composition (claim C1) -/

/-- Counterexample to claim C1 as stated: with `ProjectID = "p"` set, the
filter built by milvus_store.go admits a row of the same user with a
different project id, which the claimed conjunction (user and project and
type predicates) would reject: the project predicate is not part of the
built filter. -/
theorem thresholdFilter_project_counterexample :
    evalFilter
        (milvusThresholdFilter { Query := "q", UserID := "B", ProjectID := "p" })
        { userId := "B", projectId := "other", memType := "semantic" } = true
      ∧ evalFilter
        (claimedFilter { Query := "q", UserID := "B", ProjectID := "p" })
        { userId := "B", projectId := "other", memType := "semantic" } = false := by
  constructor <;> rfl

/-- Claim C1 as amended: every row admitted by either store's search
filter carries exactly the requesting user id — so no memory of another
user can appear in the results, and the optional project and type
predicates only narrow; the streaming store conjoins `user_id` with the
optional project and type predicates, while milvus_store.go conjoins only
the optional type predicate (its `ProjectID` is ignored, see the
counterexample).  The last conjunct lifts isolation to the retrieval
output: when every backend hit satisfies the issued filter, every
returned memory belongs to the requesting user. -/
theorem memoryFilters_user_isolation :
    (∀ (opts : RetrieveOptions) (r : Row),
        evalFilter (milvusThresholdFilter opts) r = true → r.userId = opts.UserID)
    ∧ (∀ (opts : RetrieveOptions) (r : Row),
        evalFilter (milvusStreamFilter opts) r = true → r.userId = opts.UserID)
    ∧ (∀ (opts : RetrieveOptions) (r : Row),
        evalFilter (milvusStreamFilter opts) r = true →
          evalFilter (FilterExpr.userEq opts.UserID) r = true)
    ∧ (∀ (cfg : MilvusStoreConfig) (opts : RetrieveOptions)
        (hits : List StreamHit) (res : List StreamResult),
        retrieveStream cfg opts hits = .ok res →
        (∀ h ∈ hits, evalFilter (milvusStreamFilter opts) (rowOfStreamHit h) = true) →
        ∀ x ∈ res, x.memory.userId = opts.UserID) := by
  refine ⟨thresholdFilter_user, streamFilter_user, ?_, ?_⟩
  · intro opts r h
    simp only [evalFilter, beq_iff_eq]
    exact streamFilter_user opts r h
  · intro cfg opts hits res hok hall x hx
    rw [retrieveStream_ok_eq cfg opts hits res hok] at hx
    obtain ⟨h, hh, rfl⟩ := mem_streamLoop _ hits x hx
    exact streamFilter_user opts (rowOfStreamHit h) (hall h hh)

/-- Witness for claim C1 at concrete options, rows and a concrete backend
response. -/
theorem memoryFilters_user_isolation_witness :
    ({ userId := "B", projectId := "", memType := "semantic" } : Row).userId = "B"
      ∧ ({ userId := "B", projectId := "p", memType := "semantic" } : Row).userId = "B"
      ∧ ∀ x ∈ [mkStreamResult ⟨mkRat 9 10, "m1", "B", "p", "semantic", "c", mkRat 1 2, 10⟩],
          x.memory.userId = "B" := by
  refine ⟨?_, ?_, ?_⟩
  · exact memoryFilters_user_isolation.1
      { Query := "q", UserID := "B", Types := ["semantic"] }
      { userId := "B", projectId := "", memType := "semantic" } (by rfl)
  · exact memoryFilters_user_isolation.2.1
      { Query := "q", UserID := "B", ProjectID := "p", Types := ["semantic"] }
      { userId := "B", projectId := "p", memType := "semantic" } (by rfl)
  · exact memoryFilters_user_isolation.2.2.2
      ⟨mkRat 7 10, 10⟩ { Query := "q", UserID := "B", ProjectID := "p" }
      [⟨mkRat 9 10, "m1", "B", "p", "semantic", "c", mkRat 1 2, 10⟩] _ (by decide)
      (by intro h hh; simp at hh; subst hh; rfl)

/-! ### Theorems: limit, threshold and ordering of retrieval (claim C2) -/

/-- Modelled from the spec wording of the ordering claim: results sorted
by similarity descending, with ties broken by earlier `created_at`. -/
def specTieOrdering : List StreamResult → Bool
  | [] => true
  | [_] => true
  | a :: b :: rest =>
      (decide (b.relevance < a.relevance)
          || (decide (a.relevance = b.relevance)
              && decide (a.memory.createdAt ≤ b.memory.createdAt)))
        && specTieOrdering (b :: rest)

/-- Counterexample to claim C2 as stated: on a backend response with two
equal-similarity hits handed back newest-first, the retrieval returns
them in backend order — the later-created memory first — so the results
are not tie-broken by earlier `created_at` (the code performs no sorting
and never consults `created_at`). -/
theorem retrieve_tie_order_counterexample :
    retrieveStream ⟨mkRat 7 10, 10⟩ ⟨"q", "u1", "", [], 0, mkRat 8 10⟩
        [⟨mkRat 9 10, "m1", "u1", "", "semantic", "newer fact", mkRat 1 2, 100⟩,
         ⟨mkRat 9 10, "m2", "u1", "", "semantic", "older fact", mkRat 1 2, 50⟩] =
      .ok [⟨⟨"m1", "u1", "", "semantic", "newer fact", mkRat 1 2, 100⟩, mkRat 9 10⟩,
           ⟨⟨"m2", "u1", "", "semantic", "older fact", mkRat 1 2, 50⟩, mkRat 9 10⟩]
      ∧ specTieOrdering
        [⟨⟨"m1", "u1", "", "semantic", "newer fact", mkRat 1 2, 100⟩, mkRat 9 10⟩,
         ⟨⟨"m2", "u1", "", "semantic", "older fact", mkRat 1 2, 50⟩, mkRat 9 10⟩] = false := by
  constructor <;> decide

/-- Claim C2 as amended, covering both `Retrieve` implementations
(defaults applied when the caller's limit or threshold is zero or
negative).  For the threshold-filtering store: length at most the
effective limit, every similarity at least the effective threshold, and
backend order preserved — so sorted by similarity descending whenever the
backend hits are; ties stay in backend order (`created_at` is never
consulted, see the counterexample).  For the streaming store: at most as
many results as backend hits — hence at most the effective limit whenever
the backend honours the `topK` it was asked for, which is the caller's
limit (or the configured `TopK` when unset) and the only place the limit
is applied — every relevance at least the effective threshold, and
backend order preserved in the same sense. -/
theorem retrieve_limit_threshold_sorted :
    (∀ (cfg : MemoryConfig) (opts : RetrieveOptions) (hits : List SearchHit)
        (res : List RetrieveResult),
      retrieveThreshold cfg opts hits = .ok res →
      res.length ≤ (if opts.Limit ≤ 0 then cfg.DefaultRetrievalLimit else opts.Limit).toNat
      ∧ (∀ r ∈ res,
          (if opts.Threshold ≤ 0 then cfg.DefaultSimilarityThreshold else opts.Threshold)
            ≤ r.Similarity)
      ∧ (hits.Pairwise (fun a b => b.score ≤ a.score) →
          res.Pairwise (fun a b => b.Similarity ≤ a.Similarity)))
    ∧ (∀ (cfg : MilvusStoreConfig) (opts : RetrieveOptions) (hits : List StreamHit)
        (res : List StreamResult),
      retrieveStream cfg opts hits = .ok res →
      res.length ≤ hits.length
      ∧ ((hits.length : Int) ≤ streamTopK cfg opts →
          (res.length : Int) ≤ streamTopK cfg opts)
      ∧ (∀ x ∈ res,
          (if opts.Threshold ≤ 0 then cfg.SimilarityThreshold else opts.Threshold)
            ≤ x.relevance)
      ∧ (hits.Pairwise (fun a b => b.score ≤ a.score) →
          res.Pairwise (fun a b => b.relevance ≤ a.relevance))) := by
  constructor
  · intro cfg opts hits res hok
    have hres := retrieveThreshold_ok_eq cfg opts hits res hok
    rw [processHits_eq] at hres
    simp only [List.nil_append, List.length_nil, Nat.sub_zero] at hres
    subst hres
    refine ⟨?_, ?_, ?_⟩
    · simp only [List.length_map, List.length_take]
      exact Nat.min_le_left _ _
    · intro r hr
      simp only [List.mem_map] at hr
      obtain ⟨h', hh', rfl⟩ := hr
      have h2 : h' ∈ hits.filter (goodHit _) :=
        (List.take_sublist _ _).mem hh'
      have h3 := List.of_mem_filter h2
      simp only [goodHit, Bool.and_eq_true, Bool.not_eq_true', decide_eq_false_iff_not,
        decide_eq_true_eq] at h3
      exact le_of_not_lt h3.1
    · intro hp
      have hp1 := hp.filter
        (goodHit (if opts.Threshold ≤ 0 then cfg.DefaultSimilarityThreshold else opts.Threshold))
      have hp2 := hp1.sublist
        (List.take_sublist
          (if opts.Limit ≤ 0 then cfg.DefaultRetrievalLimit else opts.Limit).toNat _)
      exact List.pairwise_map.mpr hp2
  · intro cfg opts hits res hok
    have hres := retrieveStream_ok_eq cfg opts hits res hok
    rw [streamLoop_eq] at hres
    subst hres
    have hlen : ((hits.filter (fun h => !decide (h.score <
        (if opts.Threshold ≤ 0 then cfg.SimilarityThreshold else opts.Threshold)))).map
          mkStreamResult).length ≤ hits.length := by
      rw [List.length_map]
      exact List.length_filter_le _ _
    refine ⟨hlen, ?_, ?_, ?_⟩
    · intro htopk
      omega
    · intro x hx
      simp only [List.mem_map] at hx
      obtain ⟨h', hh', rfl⟩ := hx
      have h3 := List.of_mem_filter hh'
      simp only [Bool.not_eq_true', decide_eq_false_iff_not] at h3
      exact le_of_not_lt h3
    · intro hp
      have hp1 := hp.filter (fun h => !decide (h.score <
        (if opts.Threshold ≤ 0 then cfg.SimilarityThreshold else opts.Threshold)))
      exact List.pairwise_map.mpr hp1

/-- Witness for the amended claim C2: a concrete run of each store.  The
threshold store runs with the default configuration, zero caller limit
and threshold, and a score-sorted backend response; the streaming store
runs with limit 2 and threshold 0.7 on two score-sorted hits that the
backend returned for `topK = 2`. -/
theorem retrieve_limit_threshold_sorted_witness :
    [mkRetrieveResult ⟨mkRat 85 100, "m1", "User budget is 10000", "semantic", ""⟩].length ≤
        ((5 : Int)).toNat
      ∧ mkRat 6 10 ≤
        (mkRetrieveResult ⟨mkRat 85 100, "m1", "User budget is 10000", "semantic", ""⟩).Similarity
      ∧ ([mkRetrieveResult ⟨mkRat 85 100, "m1", "User budget is 10000", "semantic", ""⟩].Pairwise
          (fun a b => b.Similarity ≤ a.Similarity))
      ∧ (([mkStreamResult ⟨mkRat 9 10, "m1", "u1", "", "semantic", "a", mkRat 1 2, 10⟩,
           mkStreamResult ⟨mkRat 8 10, "m2", "u1", "", "semantic", "b", mkRat 1 2, 20⟩].length : Int)
          ≤ streamTopK ⟨mkRat 6 10, 10⟩ ⟨"q", "u1", "", [], 2, mkRat 7 10⟩)
      ∧ mkRat 7 10 ≤
        (mkStreamResult ⟨mkRat 9 10, "m1", "u1", "", "semantic", "a", mkRat 1 2, 10⟩).relevance
      ∧ ([mkStreamResult ⟨mkRat 9 10, "m1", "u1", "", "semantic", "a", mkRat 1 2, 10⟩,
          mkStreamResult ⟨mkRat 8 10, "m2", "u1", "", "semantic", "b", mkRat 1 2, 20⟩].Pairwise
          (fun a b => b.relevance ≤ a.relevance)) := by
  have hA := retrieve_limit_threshold_sorted.1 DefaultMemoryConfig
    ⟨"budget", "u1", "", [], 0, 0⟩
    [⟨mkRat 85 100, "m1", "User budget is 10000", "semantic", ""⟩,
     ⟨mkRat 45 100, "m2", "noise", "semantic", ""⟩]
    [mkRetrieveResult ⟨mkRat 85 100, "m1", "User budget is 10000", "semantic", ""⟩]
    (by decide)
  have hB := retrieve_limit_threshold_sorted.2 ⟨mkRat 6 10, 10⟩
    ⟨"q", "u1", "", [], 2, mkRat 7 10⟩
    [⟨mkRat 9 10, "m1", "u1", "", "semantic", "a", mkRat 1 2, 10⟩,
     ⟨mkRat 8 10, "m2", "u1", "", "semantic", "b", mkRat 1 2, 20⟩]
    [mkStreamResult ⟨mkRat 9 10, "m1", "u1", "", "semantic", "a", mkRat 1 2, 10⟩,
     mkStreamResult ⟨mkRat 8 10, "m2", "u1", "", "semantic", "b", mkRat 1 2, 20⟩]
    (by decide)
  refine ⟨hA.1, hA.2.1 _ (List.mem_singleton_self _), hA.2.2 (by decide),
    hB.2.1 (by decide), ?_, hB.2.2.2 (by decide)⟩
  exact hB.2.2.1 _ (List.mem_cons_self _ _)

/-! ### Theorems: non-empty id and content of results (claim C10) -/

/-- Claim C10: every result of the threshold-filtering retrieval has
non-empty id and content — a hit with a missing or empty id or content
column is silently dropped even above the threshold — and, as the
concrete second conjunct shows, the returned list can therefore hold
fewer than `limit` results even though enough candidates meet the
threshold (two candidates at or above 0.7 with limit 2, but only one
result). -/
theorem retrieveThreshold_nonempty_id_content (cfg : MemoryConfig)
    (opts : RetrieveOptions) (hits : List SearchHit) (res : List RetrieveResult)
    (hok : retrieveThreshold cfg opts hits = .ok res) :
    (∀ r ∈ res, r.ID ≠ "" ∧ r.Content ≠ "")
    ∧ (retrieveThreshold DefaultMemoryConfig ⟨"q", "u1", "", [], 2, mkRat 7 10⟩
          [⟨mkRat 9 10, "m1", "", "semantic", ""⟩,
           ⟨mkRat 8 10, "m2", "User prefers window seats", "semantic", ""⟩] =
        .ok [mkRetrieveResult ⟨mkRat 8 10, "m2", "User prefers window seats", "semantic", ""⟩]
      ∧ ([⟨mkRat 9 10, "m1", "", "semantic", ""⟩,
          (⟨mkRat 8 10, "m2", "User prefers window seats", "semantic", ""⟩ : SearchHit)].filter
            (fun h => !decide (h.score < mkRat 7 10))).length = 2) := by
  constructor
  · intro r hr
    have hres := retrieveThreshold_ok_eq cfg opts hits res hok
    rw [processHits_eq] at hres
    simp only [List.nil_append, List.length_nil, Nat.sub_zero] at hres
    subst hres
    simp only [List.mem_map] at hr
    obtain ⟨h', hh', rfl⟩ := hr
    have h2 : h' ∈ hits.filter (goodHit _) :=
      (List.take_sublist _ _).mem hh'
    have h3 := List.of_mem_filter h2
    simp only [goodHit, Bool.and_eq_true, Bool.not_eq_true', decide_eq_false_iff_not,
      decide_eq_true_eq] at h3
    exact h3.2
  · exact ⟨by decide, by decide⟩

/-- Witness for claim C10 at a concrete run: both results of a successful
retrieval have non-empty id and content. -/
theorem retrieveThreshold_nonempty_id_content_witness :
    (mkRetrieveResult ⟨mkRat 8 10, "m2", "User prefers window seats", "semantic", ""⟩).ID ≠ ""
      ∧ (mkRetrieveResult
          ⟨mkRat 8 10, "m2", "User prefers window seats", "semantic", ""⟩).Content ≠ "" :=
  (retrieveThreshold_nonempty_id_content DefaultMemoryConfig
      ⟨"q", "u1", "", [], 2, mkRat 7 10⟩
      [⟨mkRat 9 10, "m1", "", "semantic", ""⟩,
       ⟨mkRat 8 10, "m2", "User prefers window seats", "semantic", ""⟩]
      [mkRetrieveResult ⟨mkRat 8 10, "m2", "User prefers window seats", "semantic", ""⟩]
      (by decide)).1
    _ (List.mem_singleton_self _)

/-! ### Streaming-store write operations: Store, Forget, Update

The Milvus collection is modelled as the list of its persisted rows; the
embedding model is a parameter (`embed`), as are the current time and the
uuid suffix the Go code would generate. -/

/-- Error kinds of the store operations. -/
inductive MemErr where
  | invalidUserID : MemErr
  | notFound : MemErr
  | backend : String → MemErr
deriving DecidableEq

/-- The persisted columns of one memory row. -/
structure MilvusRow where
  id : String
  userId : String
  projectId : String
  memType : String
  content : String
  importance : ℚ
  createdAt : Int
  embedding : List ℚ
deriving DecidableEq

/-- The collection state. -/
structure StoreState where
  rows : List MilvusRow
deriving DecidableEq

/-- The fields of a Memory passed to Store and Update.  `createdAt = 0`
models the zero `time.Time`. -/
structure MemoryIn where
  id : String
  memType : String
  content : String
  userId : String
  projectId : String
  importance : ℚ
  createdAt : Int
deriving DecidableEq

/-- `Forget` of the streaming store: delete by the id filter.  The delete
succeeds whether or not a row matches the filter; in particular it never
reports NotFound for a missing id. -/
def milvusForget (st : StoreState) (id : String) : Except MemErr StoreState :=
  .ok { rows := st.rows.filter (fun r => r.id ≠ id) }

/-- `Store` of the streaming store: reject an empty user id, generate an
id when the memory has none (`freshId` stands for the generated uuid
suffix), default the creation time to `now`, embed the content (an empty
embedding vector is an error) and insert the row. -/
def milvusStoreOp (embed : String → List ℚ) (now : Int) (freshId : String)
    (st : StoreState) (m : MemoryIn) : Except MemErr StoreState :=
  if m.userId = "" then .error .invalidUserID
  else
    let id := if m.id = "" then "mem_" ++ freshId else m.id
    let createdAt := if m.createdAt = 0 then now else m.createdAt
    let e := embed m.content
    if e = [] then .error (.backend "embedding generation returned empty vector")
    else
      .ok { rows := st.rows ++
        [{ id := id, userId := m.userId, projectId := m.projectId,
           memType := m.memType, content := m.content,
           importance := m.importance, createdAt := createdAt, embedding := e }] }

/-- `Update` of the streaming store: Milvus has no direct update, so the
code deletes the id and re-inserts the memory under the same id; a
NotFound from the delete would be tolerated and the insert still
performed. -/
def milvusUpdate (embed : String → List ℚ) (now : Int) (freshId : String)
    (st : StoreState) (id : String) (m : MemoryIn) : Except MemErr StoreState :=
  match milvusForget st id with
  | .error e =>
      if e = MemErr.notFound then milvusStoreOp embed now freshId st { m with id := id }
      else .error e
  | .ok st2 => milvusStoreOp embed now freshId st2 { m with id := id }

/-! ### Theorems: Update semantics (claim C7) -/

/-- Counterexample to claim C7 as stated: `Update` on an id for which no
memory exists does not fail with NotFound — on an empty collection it
succeeds and inserts the memory under the requested id. -/
theorem milvusUpdate_missing_id_counterexample :
    milvusUpdate (fun _ => [mkRat 1 2]) 1000 "abcd1234" ⟨[]⟩ "m1"
        ⟨"", "semantic", "User likes coffee", "u1", "", mkRat 1 2, 0⟩ =
      .ok ⟨[⟨"m1", "u1", "", "semantic", "User likes coffee", mkRat 1 2, 1000, [mkRat 1 2]⟩]⟩
      ∧ milvusUpdate (fun _ => [mkRat 1 2]) 1000 "abcd1234" ⟨[]⟩ "m1"
        ⟨"", "semantic", "User likes coffee", "u1", "", mkRat 1 2, 0⟩ ≠
      .error MemErr.notFound := by
  constructor <;> decide

/-- Claim C7 as amended: `Update(id, m)` (for a valid memory and a
non-empty id) always deletes whatever rows carry `id` and re-inserts `m`
under that same id — so on an existing id the memory is replaced in place
with the id preserved, while on a missing id the memory is inserted under
`id` (an upsert); no NotFound error is ever produced. -/
theorem milvusUpdate_replaces_preserving_id (embed : String → List ℚ)
    (now : Int) (freshId : String) (st : StoreState) (id : String) (m : MemoryIn)
    (hu : m.userId ≠ "") (he : embed m.content ≠ []) (hid : id ≠ "") :
    milvusUpdate embed now freshId st id m =
      .ok { rows := st.rows.filter (fun r => r.id ≠ id) ++
        [{ id := id, userId := m.userId, projectId := m.projectId,
           memType := m.memType, content := m.content, importance := m.importance,
           createdAt := if m.createdAt = 0 then now else m.createdAt,
           embedding := embed m.content }] } := by
  simp [milvusUpdate, milvusForget, milvusStoreOp, hu, he, hid]

/-- Witness for the amended claim C7: updating an existing id replaces
the row in place, keeping the id. -/
theorem milvusUpdate_replaces_preserving_id_witness :
    milvusUpdate (fun _ => [mkRat 1 2]) 2000 "abcd1234"
        ⟨[⟨"m1", "u1", "", "semantic", "old content", mkRat 1 2, 100, [mkRat 1 2]⟩]⟩ "m1"
        ⟨"m1", "semantic", "new content", "u1", "", mkRat 1 2, 100⟩ =
      .ok ⟨[⟨"m1", "u1", "", "semantic", "new content", mkRat 1 2, 100, [mkRat 1 2]⟩]⟩ := by
  have hT := milvusUpdate_replaces_preserving_id (fun _ => [mkRat 1 2]) 2000 "abcd1234"
    ⟨[⟨"m1", "u1", "", "semantic", "old content", mkRat 1 2, 100, [mkRat 1 2]⟩]⟩ "m1"
    ⟨"m1", "semantic", "new content", "u1", "", mkRat 1 2, 100⟩
    (by decide) (by decide) (by decide)
  rw [hT]
  decide

/-! ### Turn-batched extraction: ProcessResponse

`ProcessResponse` is modelled on the state it manipulates: the
per-session turn counters and the decision which trailing slice of the
history (if any) is handed to the LLM extractor.  The LLM call itself and
the subsequent per-fact deduplicated storage are external effects driven
by that batch. -/

/-- A conversation message. -/
structure Message where
  role : String
  content : String
deriving DecidableEq

/-- The extraction configuration fields consulted by ProcessResponse. -/
structure ExtractionConfig where
  Enabled : Bool
  Endpoint : String
  BatchSize : Int

/-- The observable outcome of one ProcessResponse invocation: the updated
turn counters, and the batch passed to the extractor when extraction
fired. -/
structure ProcResult where
  turnCounts : String → Nat
  extractorBatch : Option (List Message)

/-- `ProcessResponse`: skip everything when the store or the extraction
configuration is disabled; otherwise increment the session's turn
counter, default the batch size to 10 when it is unset or non-positive,
and fire extraction exactly on multiples of the batch size, handing the
extractor the trailing `batchSize + 5` messages of the history (the whole
history when it is shorter). -/
def processResponse (storeEnabled : Bool) (cfg : Option ExtractionConfig)
    (turnCounts : String → Nat) (sessionID : String) (history : List Message) :
    ProcResult :=
  if !storeEnabled then ⟨turnCounts, none⟩
  else
    match cfg with
    | none => ⟨turnCounts, none⟩
    | some c =>
      if !c.Enabled || c.Endpoint = "" then ⟨turnCounts, none⟩
      else
        let newCounts := fun s => if s = sessionID then turnCounts sessionID + 1 else turnCounts s
        let turnCount := turnCounts sessionID + 1
        let batchSize := if c.BatchSize ≤ 0 then 10 else c.BatchSize
        if (turnCount : Int) % batchSize ≠ 0 then ⟨newCounts, none⟩
        else
          let batchStart :=
            if (history.length : Int) > batchSize + 5 then
              (history.length : Int) - batchSize - 5
            else 0
          ⟨newCounts, some (history.drop batchStart.toNat)⟩

/-- The effective batch size: the configured value, defaulting to 10 when
unset, zero or negative. -/
def effectiveBatchSize (c : ExtractionConfig) : Int :=
  if c.BatchSize ≤ 0 then 10 else c.BatchSize

/-! ### Theorems: turn batching (claim C4) -/

/-- Claim C4: with the store enabled and extraction configured, every
`ProcessResponse` invocation increments exactly the session's turn
counter; the extractor fires exactly when the post-increment counter is a
multiple of the effective batch size `B` (the configured value, or 10
when it is unset, zero or negative); and when it fires, the batch handed
to the extractor is the trailing `B + 5` messages of the history — the
whole history when it is shorter. -/
theorem processResponse_turn_batching (cfg : ExtractionConfig)
    (turnCounts : String → Nat) (sid : String) (history : List Message)
    (hen : cfg.Enabled = true) (hep : cfg.Endpoint ≠ "") :
    (processResponse true (some cfg) turnCounts sid history).turnCounts sid
        = turnCounts sid + 1
    ∧ (∀ s, s ≠ sid →
        (processResponse true (some cfg) turnCounts sid history).turnCounts s = turnCounts s)
    ∧ (processResponse true (some cfg) turnCounts sid history).extractorBatch
        = (if ((turnCounts sid + 1 : Int)) % effectiveBatchSize cfg = 0 then
            some (history.drop
              (if (history.length : Int) > effectiveBatchSize cfg + 5 then
                (history.length : Int) - effectiveBatchSize cfg - 5
              else 0).toNat)
          else none)
    ∧ (∀ b, (processResponse true (some cfg) turnCounts sid history).extractorBatch = some b →
        b.length = min history.length ((effectiveBatchSize cfg).toNat + 5)) := by
  have hB : (1 : Int) ≤ effectiveBatchSize cfg := by
    unfold effectiveBatchSize; split <;> omega
  have hrun : processResponse true (some cfg) turnCounts sid history =
      ⟨fun s => if s = sid then turnCounts sid + 1 else turnCounts s,
       if ((turnCounts sid + 1 : Int)) % effectiveBatchSize cfg = 0 then
         some (history.drop
           (if (history.length : Int) > effectiveBatchSize cfg + 5 then
             (history.length : Int) - effectiveBatchSize cfg - 5
           else 0).toNat)
       else none⟩ := by
    by_cases hm : ((turnCounts sid + 1 : Int)) % effectiveBatchSize cfg = 0 <;>
      simp [processResponse, effectiveBatchSize, hen, hep, hm] <;>
      simp [effectiveBatchSize] at hm <;> simp [hm]
  refine ⟨?_, ?_, ?_, ?_⟩
  · rw [hrun]; simp
  · intro s hs; rw [hrun]; simp [hs]
  · rw [hrun]
  · intro b hb
    rw [hrun] at hb
    by_cases hm : ((turnCounts sid + 1 : Int)) % effectiveBatchSize cfg = 0
    · rw [if_pos hm] at hb
      obtain rfl : b = history.drop
          (if (history.length : Int) > effectiveBatchSize cfg + 5 then
            (history.length : Int) - effectiveBatchSize cfg - 5
          else 0).toNat := by
        exact (Option.some.injEq _ _ ▸ hb).symm
      rw [List.length_drop]
      by_cases hl : (history.length : Int) > effectiveBatchSize cfg + 5
      · rw [if_pos hl]; omega
      · rw [if_neg hl]; omega
    · rw [if_neg hm] at hb; exact absurd hb (by simp)

/-- Witness for claim C4: batch size 3, a counter at 5, so the sixth turn
fires, and a 10-message history, of which the trailing 3 + 5 = 8 messages
form the batch. -/
theorem processResponse_turn_batching_witness :
    (processResponse true (some ⟨true, "http-endpoint", 3⟩)
        (fun s => if s = "s1" then 5 else 0) "s1"
        (List.replicate 10 ⟨"user", "hello"⟩)).turnCounts "s1" = 6
    ∧ (processResponse true (some ⟨true, "http-endpoint", 3⟩)
        (fun s => if s = "s1" then 5 else 0) "s1"
        (List.replicate 10 ⟨"user", "hello"⟩)).turnCounts "s2" = 0
    ∧ (processResponse true (some ⟨true, "http-endpoint", 3⟩)
        (fun s => if s = "s1" then 5 else 0) "s1"
        (List.replicate 10 ⟨"user", "hello"⟩)).extractorBatch
      = some (List.replicate 8 ⟨"user", "hello"⟩) := by
  have hT := processResponse_turn_batching ⟨true, "http-endpoint", 3⟩
    (fun s => if s = "s1" then 5 else 0) "s1"
    (List.replicate 10 ⟨"user", "hello"⟩) rfl (by decide)
  refine ⟨?_, ?_, ?_⟩
  · rw [hT.1]; decide
  · rw [hT.2.1 "s2" (by decide)]; decide
  · rw [hT.2.2.1]
    decide

/-! ### Extractor response parsing (parseExtractedFacts)

`cleanJSONResponse` strips a markdown code fence with the regex
`(?s)(fence)(?:json)?\s*(.+?)\s*(fence)` through `FindStringSubmatch`.
The embedding below implements the leftmost match with the source
pattern's preferences: the optional `json` tag and the leading `\s*` are
greedy, the captured group `(.+?)` is lazy, and the trailing `\s*` is
forced (the fence begins with a non-space character, so the whitespace
run before it is consumed whole). -/

/-- The three-backtick fence. -/
def fenceL : List Char := [backtickChar, backtickChar, backtickChar]

/-- The optional `json` language tag after the opening fence. -/
def jsonTagL : List Char := "json".data

/-- Does the trailing part of the pattern, `\s*` followed by the closing
fence, match a prefix of `t`? -/
def tailFence (t : List Char) : Bool :=
  fenceL.isPrefixOf (t.drop (countWhile isSpaceGo t))

/-- `tailFence` at offset `e` of `s`. -/
def tryTail (s : List Char) (e : Nat) : Bool :=
  tailFence (s.drop e)

/-- The body of the match after the opening fence and optional tag:
greedy leading whitespace (longest run first), then the shortest
non-empty captured group whose remainder matches the pattern tail. -/
def tryFrom (s : List Char) (j : Nat) : Option (List Char) :=
  ((List.range (countWhile isSpaceGo (s.drop j) + 1)).map
      (fun k => countWhile isSpaceGo (s.drop j) - k)).findSome? (fun wp =>
    match (List.range' 1 (s.length - (j + wp))).find? (fun L => tryTail s (j + wp + L)) with
    | some L => some ((s.drop (j + wp)).take L)
    | none => none)

/-- Attempt a match of the fence pattern starting at index `i`: the
opening fence, then the greedy optional `json` tag (with fallback when
consuming it makes the rest fail). -/
def tryAt (s : List Char) (i : Nat) : Option (List Char) :=
  if isPrefixAt s i fenceL then
    if isPrefixAt s (i + 3) jsonTagL then
      match tryFrom s (i + 3 + 4) with
      | some g => some g
      | none => tryFrom s (i + 3)
    else tryFrom s (i + 3)
  else none

/-- The captured group of the leftmost match of the fence pattern, if
any. -/
def findFenceGroup (s : List Char) : Option (List Char) :=
  (List.range s.length).findSome? (fun i => tryAt s i)

/-- `cleanJSONResponse`: replace the reply by the captured fence group
when the pattern matches, then trim whitespace. -/
def cleanJSONResponse (s : List Char) : List Char :=
  let s2 := match findFenceGroup s with
    | some g => g
    | none => s
  trimSpaceL s2

/-- A fact as decoded from the JSON reply: the `type` and `content`
string fields. -/
structure RawFact where
  type : String
  content : String
deriving DecidableEq

/-- A validated extracted fact. -/
structure ExtractedFact where
  type : String
  content : String
deriving DecidableEq

/-- `normalizeMemoryType`: lowercase and trim the type, and keep it only
when it is one of the three extractor-produced memory types; the empty
string is the invalid marker. -/
def normalizeMemoryType (typeStr : String) : String :=
  let t := String.mk (lowerStr (trimSpaceL typeStr.data))
  if t = "semantic" then "semantic"
  else if t = "procedural" then "procedural"
  else if t = "episodic" then "episodic"
  else ""

/-- The validation loop of `parseExtractedFacts`: drop facts with empty
or whitespace-only content and facts whose type does not normalise;
survivors carry the canonical type and the trimmed content. -/
def validateFacts : List RawFact → List ExtractedFact
  | [] => []
  | f :: rest =>
    if trimSpaceL f.content.data = [] then validateFacts rest
    else if normalizeMemoryType f.type = "" then validateFacts rest
    else { type := normalizeMemoryType f.type,
           content := String.mk (trimSpaceL f.content.data) } :: validateFacts rest

/-! A small JSON decoder modelling `json.Unmarshal` into a slice of
`(type, content)` structs, for the fragment the extractor exchanges:
arrays of flat objects with string-valued fields; unknown keys are
ignored, later duplicates win, and the whole input must be consumed. -/

/-- The opening curly bracket, by code point. -/
def lbraceChar : Char := Char.ofNat 123

/-- The closing curly bracket, by code point. -/
def rbraceChar : Char := Char.ofNat 125

/-- JSON insignificant whitespace. -/
def isJsonWs (c : Char) : Bool :=
  c = ' ' || c = '\t' || c = '\n' || c = '\r'

/-- Skip insignificant whitespace. -/
def skipWs (t : List Char) : List Char := t.dropWhile isJsonWs

/-- Decode one escape character of a JSON string literal. -/
def jsonEscape (e : Char) : Option Char :=
  if e = 'n' then some '\n'
  else if e = 't' then some '\t'
  else if e = 'r' then some '\r'
  else if e = '"' then some '"'
  else if e = '\\' then some '\\'
  else if e = '/' then some '/'
  else none

/-- Read the remainder of a JSON string literal (the opening quote
already consumed); yields the decoded characters and the rest of the
input. -/
def jsonStringRest : List Char → Option (List Char × List Char)
  | [] => none
  | '"' :: rest => some ([], rest)
  | '\\' :: [] => none
  | '\\' :: e :: rest =>
      (jsonEscape e).bind (fun ch =>
        (jsonStringRest rest).map (fun p => (ch :: p.1, p.2)))
  | c :: rest => (jsonStringRest rest).map (fun p => (c :: p.1, p.2))

/-- Read the fields of a JSON object (positioned at a key), folding the
`type` and `content` fields into the accumulator. -/
def jsonObjectFields : Nat → List Char → RawFact → Option (RawFact × List Char)
  | 0, _, _ => none
  | fuel + 1, t, acc =>
    match skipWs t with
    | '"' :: rest =>
      match jsonStringRest rest with
      | none => none
      | some (key, r1) =>
        match skipWs r1 with
        | ':' :: r3 =>
          match skipWs r3 with
          | '"' :: r5 =>
            match jsonStringRest r5 with
            | none => none
            | some (val, r6) =>
              let acc2 :=
                if key = "type".data then { acc with type := String.mk val }
                else if key = "content".data then { acc with content := String.mk val }
                else acc
              match skipWs r6 with
              | c :: r8 =>
                if c = ',' then jsonObjectFields fuel r8 acc2
                else if c = rbraceChar then some (acc2, r8)
                else none
              | [] => none
          | _ => none
        | _ => none
    | _ => none

/-- Read one JSON object into a `RawFact` (missing fields stay empty, as
with Go zero values). -/
def jsonObject (fuel : Nat) (t : List Char) : Option (RawFact × List Char) :=
  match skipWs t with
  | [] => none
  | c :: rest =>
    if c = lbraceChar then
      match skipWs rest with
      | [] => none
      | c2 :: rest2 =>
        if c2 = rbraceChar then some ({ type := "", content := "" }, rest2)
        else jsonObjectFields fuel (c2 :: rest2) { type := "", content := "" }
    else none

/-- Read the elements of a non-empty JSON array of objects up to and
including the closing bracket. -/
def jsonArrayElems : Nat → List Char → Option (List RawFact × List Char)
  | 0, _ => none
  | fuel + 1, t =>
    match jsonObject fuel t with
    | none => none
    | some (f, r) =>
      match skipWs r with
      | c :: r2 =>
        if c = ',' then (jsonArrayElems fuel r2).map (fun p => (f :: p.1, p.2))
        else if c = ']' then some ([f], r2)
        else none
      | [] => none

/-- Decode a whole JSON array of `(type, content)` objects; anything else
is a decoding error. -/
def jsonDecodeFacts (t : List Char) : Option (List RawFact) :=
  match skipWs t with
  | [] => none
  | c :: rest =>
    if c = '[' then
      match skipWs rest with
      | [] => none
      | c2 :: rest2 =>
        if c2 = ']' then (if skipWs rest2 = [] then some [] else none)
        else
          match jsonArrayElems (t.length + 1) (c2 :: rest2) with
          | none => none
          | some (fs, r) => if skipWs r = [] then some fs else none
    else none

/-- `parseExtractedFacts`: trim the reply, strip a code fence, return no
facts for an empty reply or an empty array, otherwise decode the JSON
(a decoding failure is an error) and validate the decoded facts. -/
def parseExtractedFactsL (content : List Char) : Except String (List ExtractedFact) :=
  let c := cleanJSONResponse (trimSpaceL content)
  if c = [] ∨ c = "[]".data then .ok []
  else
    match jsonDecodeFacts c with
    | none => .error "failed to parse facts JSON"
    | some facts => .ok (validateFacts facts)

/-- `parseExtractedFacts` on a Lean string. -/
def parseExtractedFacts (content : String) : Except String (List ExtractedFact) :=
  parseExtractedFactsL content.data

/-- A reply whose JSON array is wrapped in a fence with the `json` tag. -/
def wrapJsonFence (body : List Char) : List Char :=
  fenceL ++ jsonTagL ++ '\n' :: (body ++ '\n' :: fenceL)

/-- A reply whose JSON array is wrapped in a plain fence. -/
def wrapPlainFence (body : List Char) : List Char :=
  fenceL ++ '\n' :: (body ++ '\n' :: fenceL)

lemma isPrefixOf_append_self (u v : List Char) : u.isPrefixOf (u ++ v) = true := by
  induction u with
  | nil => simp [List.isPrefixOf]
  | cons c t ih => simp [List.isPrefixOf, ih]

lemma fence_not_prefix_cons (c : Char) (t : List Char) (h : c ≠ backtickChar) :
    fenceL.isPrefixOf (c :: t) = false := by
  simp [fenceL, List.isPrefixOf]
  intro he
  exact absurd he.symm h

lemma fence_not_prefix (t : List Char) (h : ∀ c ∈ t, c ≠ backtickChar) :
    fenceL.isPrefixOf t = false := by
  cases t with
  | nil => rfl
  | cons c r => exact fence_not_prefix_cons c r (h c (List.mem_cons_self c r))

lemma dropWhile_eq_self_of_head (p : Char → Bool) (l : List Char)
    (h : ∀ c, l.head? = some c → p c = false) : l.dropWhile p = l := by
  cases l with
  | nil => rfl
  | cons c t => simp [List.dropWhile_cons, h c rfl]

lemma trimSpaceL_eq_self (l : List Char)
    (h1 : ∀ c, l.head? = some c → isSpaceGo c = false)
    (h2 : ∀ c, l.getLast? = some c → isSpaceGo c = false) : trimSpaceL l = l := by
  unfold trimSpaceL
  rw [dropWhile_eq_self_of_head _ _ h1]
  rw [dropWhile_eq_self_of_head _ _ (fun c hc => h2 c (by rwa [← List.head?_reverse]))]
  exact List.reverse_reverse l


lemma countWhile_cons (p : Char → Bool) (c : Char) (t : List Char) :
    countWhile p (c :: t) = if p c then countWhile p t + 1 else 0 := by
  simp only [countWhile, List.takeWhile_cons]
  split <;> simp

lemma takeWhile_append_of_not_all (p : Char → Bool) (u v : List Char)
    (h : u.dropWhile p ≠ []) : (u ++ v).takeWhile p = u.takeWhile p := by
  induction u with
  | nil => simp [List.dropWhile] at h
  | cons c t ih =>
    by_cases hc : p c
    · simp only [List.cons_append, List.takeWhile_cons, hc, if_pos, ite_true]
      rw [ih (by simpa [List.dropWhile_cons, hc] using h)]
    · simp [List.takeWhile_cons, hc]

lemma drop_countWhile_append (p : Char → Bool) (u v : List Char)
    (h : u.dropWhile p ≠ []) :
    (u ++ v).drop (countWhile p (u ++ v)) = u.dropWhile p ++ v := by
  rw [countWhile, takeWhile_append_of_not_all p u v h]
  have hu : u = u.takeWhile p ++ u.dropWhile p := (List.takeWhile_append_dropWhile p u).symm
  calc (u ++ v).drop (u.takeWhile p).length
      = ((u.takeWhile p ++ u.dropWhile p) ++ v).drop (u.takeWhile p).length := by rw [← hu]
    _ = (u.takeWhile p ++ (u.dropWhile p ++ v)).drop (u.takeWhile p).length := by
        rw [List.append_assoc]
    _ = u.dropWhile p ++ v := List.drop_left _ _

lemma head_dropWhile_not (p : Char → Bool) (l : List Char) :
    ∀ c, (l.dropWhile p).head? = some c → p c = false := by
  induction l with
  | nil => intro c hc; simp [List.dropWhile] at hc
  | cons a t ih =>
    intro c hc
    by_cases ha : p a
    · rw [List.dropWhile_cons, if_pos ha] at hc
      exact ih c hc
    · rw [List.dropWhile_cons, if_neg ha] at hc
      simp at hc
      subst hc
      simpa using ha

lemma tailFence_append_false (u v : List Char)
    (hnb : ∀ c ∈ u, c ≠ backtickChar)
    (hex : ∃ c ∈ u, isSpaceGo c = false) :
    tailFence (u ++ v) = false := by
  have hne : u.dropWhile isSpaceGo ≠ [] := by
    intro hnil
    obtain ⟨c, hc, hcs⟩ := hex
    have := (List.dropWhile_eq_nil_iff).mp hnil c hc
    simp [this] at hcs
  unfold tailFence
  rw [drop_countWhile_append _ _ _ hne]
  rcases hh : (u.dropWhile isSpaceGo) with _ | ⟨c, r⟩
  · exact absurd hh hne
  · rw [List.cons_append]
    apply fence_not_prefix_cons
    apply hnb
    have : c ∈ u.dropWhile isSpaceGo := by rw [hh]; exact List.mem_cons_self c r
    exact (List.dropWhile_sublist _).mem this


lemma find?_range'_eq (p : Nat → Bool) (m : Nat) :
    ∀ (a len : Nat), a ≤ m → m < a + len → p m = true →
      (∀ k, a ≤ k → k < m → p k = false) →
      (List.range' a len).find? p = some m := by
  intro a len
  induction len generalizing a with
  | zero => intro h1 h2; omega
  | succ n ih =>
    intro ham hm hp hlt
    rw [List.range'_succ]
    by_cases ha : a = m
    · subst ha
      rw [List.find?_cons_of_pos _ hp]
    · have hpa : p a = false := hlt a le_rfl (lt_of_le_of_ne ham ha)
      rw [List.find?_cons_of_neg _ (by simp [hpa])]
      exact ih (a + 1) (by omega) (by omega) hp (fun k hk1 hk2 => hlt k (by omega) hk2)

lemma getLast_mem_drop (a : Char) :
    ∀ (k : Nat) (l : List Char), k < l.length → l.getLast? = some a → a ∈ l.drop k := by
  intro k
  induction k with
  | zero =>
    intro l _ hl
    have h1 : l.reverse.head? = some a := by rw [List.head?_reverse]; exact hl
    rcases hrev : l.reverse with _ | ⟨c, t⟩
    · rw [hrev] at h1; simp at h1
    · rw [hrev] at h1
      simp only [List.head?_cons, Option.some.injEq] at h1
      subst h1
      have : c ∈ l.reverse := by rw [hrev]; exact List.mem_cons_self c t
      simpa using List.mem_reverse.mp this
  | succ k ih =>
    intro l hk hl
    match l, hk with
    | c :: d :: t, hk =>
      rw [List.getLast?_cons_cons] at hl
      have := ih (d :: t) (by simpa using hk) hl
      simpa [List.drop_succ_cons] using this


lemma tryFrom_at (s : List Char) (j : Nat) (tl : List Char)
    (hlast : ('[' :: tl).getLast? = some ']')
    (hnb : ∀ c ∈ ('[' :: tl), c ≠ backtickChar)
    (hdrop : s.drop j = '\n' :: (('[' :: tl) ++ '\n' :: fenceL))
    (hlen : s.length = j + 1 + ('[' :: tl).length + 4) :
    tryFrom s j = some ('[' :: tl) := by
  have hw : countWhile isSpaceGo (s.drop j) = 1 := by
    rw [hdrop, countWhile_cons, List.cons_append, countWhile_cons]
    simp [isSpaceGo]
  have hdrop1 : s.drop (j + 1) = ('[' :: tl) ++ '\n' :: fenceL := by
    have h2 : List.drop 1 (List.drop j s) = List.drop (j + 1) s := List.drop_drop 1 j s
    rw [← h2, hdrop]
    rfl
  unfold tryFrom
  rw [hw]
  rw [show ((List.range (1 + 1)).map (fun k => (1:Nat) - k)) = [1, 0] from by decide]
  rw [List.findSome?_cons]
  have hfind : (List.range' 1 (s.length - (j + 1))).find?
      (fun L => tryTail s (j + 1 + L)) = some ('[' :: tl).length := by
    apply find?_range'_eq
    · exact Nat.one_le_iff_ne_zero.mpr (by simp)
    · omega
    · show tryTail s (j + 1 + ('[' :: tl).length) = true
      unfold tryTail
      rw [← List.drop_drop, hdrop1, List.drop_left]
      decide
    · intro k hk1 hk2
      show tryTail s (j + 1 + k) = false
      unfold tryTail
      rw [← List.drop_drop, hdrop1,
        List.drop_append_of_le_length (by omega)]
      apply tailFence_append_false
      · intro c hc
        exact hnb c (List.mem_of_mem_drop hc)
      · exact ⟨']', getLast_mem_drop ']' k _ hk2 hlast, by decide⟩
  rw [hfind]
  simp only [hdrop1, List.take_left]


lemma findFenceGroup_wrapJson (tl : List Char)
    (hlast : ('[' :: tl).getLast? = some ']')
    (hnb : ∀ c ∈ ('[' :: tl), c ≠ backtickChar) :
    findFenceGroup (wrapJsonFence ('[' :: tl)) = some ('[' :: tl) := by
  have hs : wrapJsonFence ('[' :: tl) =
      (fenceL ++ jsonTagL) ++ ('\n' :: (('[' :: tl) ++ '\n' :: fenceL)) := by
    simp [wrapJsonFence, List.append_assoc]
  have hdrop7 : (wrapJsonFence ('[' :: tl)).drop 7 =
      '\n' :: (('[' :: tl) ++ '\n' :: fenceL) := by
    rw [hs]
    rw [show (7:Nat) = (fenceL ++ jsonTagL).length from by decide]
    exact List.drop_left _ _
  have hlen : (wrapJsonFence ('[' :: tl)).length = 7 + 1 + ('[' :: tl).length + 4 := by
    simp [wrapJsonFence, fenceL, jsonTagL]
    omega
  have htf : tryFrom (wrapJsonFence ('[' :: tl)) 7 = some ('[' :: tl) :=
    tryFrom_at _ 7 tl hlast hnb hdrop7 hlen
  have hat : tryAt (wrapJsonFence ('[' :: tl)) 0 = some ('[' :: tl) := by
    unfold tryAt
    have hp1 : isPrefixAt (wrapJsonFence ('[' :: tl)) 0 fenceL = true := by
      unfold isPrefixAt
      rw [List.drop_zero, hs, List.append_assoc]
      exact isPrefixOf_append_self _ _
    have hp2 : isPrefixAt (wrapJsonFence ('[' :: tl)) (0 + 3) jsonTagL = true := by
      unfold isPrefixAt
      rw [hs, List.append_assoc]
      rw [show (0+3:Nat) = fenceL.length from by decide, List.drop_left]
      exact isPrefixOf_append_self _ _
    rw [hp1, if_pos rfl, hp2, if_pos rfl]
    rw [show (0 + 3 + 4 : Nat) = 7 from by decide, htf]
  have hpos : 0 < (wrapJsonFence ('[' :: tl)).length := by rw [hlen]; omega
  unfold findFenceGroup
  obtain ⟨n, hn⟩ : ∃ n, (wrapJsonFence ('[' :: tl)).length = n + 1 :=
    ⟨_, (Nat.succ_pred_eq_of_pos hpos).symm⟩
  rw [hn, List.range_succ_eq_map, List.findSome?_cons, hat]

lemma findFenceGroup_wrapPlain (tl : List Char)
    (hlast : ('[' :: tl).getLast? = some ']')
    (hnb : ∀ c ∈ ('[' :: tl), c ≠ backtickChar) :
    findFenceGroup (wrapPlainFence ('[' :: tl)) = some ('[' :: tl) := by
  have hs : wrapPlainFence ('[' :: tl) =
      fenceL ++ ('\n' :: (('[' :: tl) ++ '\n' :: fenceL)) := by
    simp [wrapPlainFence]
  have hdrop3 : (wrapPlainFence ('[' :: tl)).drop 3 =
      '\n' :: (('[' :: tl) ++ '\n' :: fenceL) := by
    rw [hs]
    rw [show (3:Nat) = fenceL.length from by decide]
    exact List.drop_left _ _
  have hlen : (wrapPlainFence ('[' :: tl)).length = 3 + 1 + ('[' :: tl).length + 4 := by
    simp [wrapPlainFence, fenceL]
    omega
  have htf : tryFrom (wrapPlainFence ('[' :: tl)) 3 = some ('[' :: tl) :=
    tryFrom_at _ 3 tl hlast hnb hdrop3 hlen
  have hat : tryAt (wrapPlainFence ('[' :: tl)) 0 = some ('[' :: tl) := by
    unfold tryAt
    have hp1 : isPrefixAt (wrapPlainFence ('[' :: tl)) 0 fenceL = true := by
      unfold isPrefixAt
      rw [List.drop_zero, hs]
      exact isPrefixOf_append_self _ _
    have hp2 : isPrefixAt (wrapPlainFence ('[' :: tl)) (0 + 3) jsonTagL = false := by
      unfold isPrefixAt
      rw [show (0+3:Nat) = 3 from rfl, hdrop3]
      simp [jsonTagL, List.isPrefixOf]
    rw [hp1, if_pos rfl, hp2]
    simp only [Bool.false_eq_true, if_false]
    rw [show (0 + 3 : Nat) = 3 from rfl, htf]
  have hpos : 0 < (wrapPlainFence ('[' :: tl)).length := by rw [hlen]; omega
  unfold findFenceGroup
  obtain ⟨n, hn⟩ : ∃ n, (wrapPlainFence ('[' :: tl)).length = n + 1 :=
    ⟨_, (Nat.succ_pred_eq_of_pos hpos).symm⟩
  rw [hn, List.range_succ_eq_map, List.findSome?_cons, hat]


lemma findFenceGroup_no_backtick (body : List Char)
    (hnb : ∀ c ∈ body, c ≠ backtickChar) :
    findFenceGroup body = none := by
  unfold findFenceGroup
  apply List.findSome?_eq_none_iff.mpr
  intro i _
  unfold tryAt
  have hpf : isPrefixAt body i fenceL = false := by
    unfold isPrefixAt
    apply fence_not_prefix
    intro c hc
    exact hnb c (List.mem_of_mem_drop hc)
  rw [hpf]
  simp

lemma trim_wrapJson (body : List Char) :
    trimSpaceL (wrapJsonFence body) = wrapJsonFence body := by
  apply trimSpaceL_eq_self
  · intro c hc
    simp [wrapJsonFence, fenceL] at hc
    subst hc
    decide
  · intro c hc
    rw [← List.head?_reverse] at hc
    simp [wrapJsonFence, fenceL, List.reverse_append] at hc
    subst hc
    decide

lemma trim_wrapPlain (body : List Char) :
    trimSpaceL (wrapPlainFence body) = wrapPlainFence body := by
  apply trimSpaceL_eq_self
  · intro c hc
    simp [wrapPlainFence, fenceL] at hc
    subst hc
    decide
  · intro c hc
    rw [← List.head?_reverse] at hc
    simp [wrapPlainFence, fenceL, List.reverse_append] at hc
    subst hc
    decide

lemma trim_body_eq (tl : List Char) (hl : ('[' :: tl).getLast? = some ']') :
    trimSpaceL ('[' :: tl) = '[' :: tl := by
  apply trimSpaceL_eq_self
  · intro c hc
    simp at hc
    subst hc
    decide
  · intro c hc
    rw [hl] at hc
    simp at hc
    subst hc
    decide


lemma clean_wrapJson_eq (tl : List Char)
    (hlast : ('[' :: tl).getLast? = some ']')
    (hnb : ∀ c ∈ ('[' :: tl), c ≠ backtickChar) :
    cleanJSONResponse (trimSpaceL (wrapJsonFence ('[' :: tl))) = '[' :: tl := by
  rw [trim_wrapJson]
  unfold cleanJSONResponse
  rw [findFenceGroup_wrapJson tl hlast hnb]
  exact trim_body_eq tl hlast

lemma clean_wrapPlain_eq (tl : List Char)
    (hlast : ('[' :: tl).getLast? = some ']')
    (hnb : ∀ c ∈ ('[' :: tl), c ≠ backtickChar) :
    cleanJSONResponse (trimSpaceL (wrapPlainFence ('[' :: tl))) = '[' :: tl := by
  rw [trim_wrapPlain]
  unfold cleanJSONResponse
  rw [findFenceGroup_wrapPlain tl hlast hnb]
  exact trim_body_eq tl hlast

lemma clean_body_eq (tl : List Char)
    (hlast : ('[' :: tl).getLast? = some ']')
    (hnb : ∀ c ∈ ('[' :: tl), c ≠ backtickChar) :
    cleanJSONResponse (trimSpaceL ('[' :: tl)) = '[' :: tl := by
  rw [trim_body_eq tl hlast]
  unfold cleanJSONResponse
  rw [findFenceGroup_no_backtick _ hnb]
  exact trim_body_eq tl hlast


/-- Claim C6: parsing of an LLM extraction reply is fence-invariant and
filtering.  (a) For a reply whose content is a JSON array (no stray
backtick, starting with an opening and ending with a closing square
bracket) wrapped in a markdown code fence — either with the `json` tag or
plain — the parse yields exactly the same result as for the unwrapped
array.  (b) A decoded fact survives validation if and only if its trimmed
content is non-empty and its type normalises to a canonical memory type;
survivors carry the trimmed content and the canonical type.  (c) The type
normalises (to non-empty) exactly when its trimmed, lowercased form is
one of semantic, procedural, episodic. -/
theorem parseExtractedFacts_fence_and_filter :
    (∀ body : List Char,
        (∀ c ∈ body, c ≠ backtickChar) →
        body.head? = some '[' →
        body.getLast? = some ']' →
        parseExtractedFactsL (wrapJsonFence body) = parseExtractedFactsL body
          ∧ parseExtractedFactsL (wrapPlainFence body) = parseExtractedFactsL body)
    ∧ (∀ facts : List RawFact,
        validateFacts facts = facts.filterMap (fun f =>
          if trimSpaceL f.content.data = [] then none
          else if normalizeMemoryType f.type = "" then none
          else some { type := normalizeMemoryType f.type,
                      content := String.mk (trimSpaceL f.content.data) }))
    ∧ (∀ t : String, normalizeMemoryType t ≠ "" ↔
        String.mk (lowerStr (trimSpaceL t.data)) ∈
          (["semantic", "procedural", "episodic"] : List String)) := by
  refine ⟨?_, ?_, ?_⟩
  · intro body hnb hh hl
    obtain ⟨tl, rfl⟩ : ∃ tl, body = '[' :: tl := by
      cases body with
      | nil => simp at hh
      | cons c t =>
        simp only [List.head?_cons, Option.some.injEq] at hh
        exact ⟨t, by rw [hh]⟩
    constructor
    · unfold parseExtractedFactsL
      rw [clean_wrapJson_eq tl hl hnb, clean_body_eq tl hl hnb]
    · unfold parseExtractedFactsL
      rw [clean_wrapPlain_eq tl hl hnb, clean_body_eq tl hl hnb]
  · intro facts
    induction facts with
    | nil => rfl
    | cons f rest ih =>
      rw [validateFacts, List.filterMap_cons]
      by_cases h1 : trimSpaceL f.content.data = []
      · simp [h1, ih]
      · by_cases h2 : normalizeMemoryType f.type = ""
        · simp [h1, h2, ih]
        · simp [h1, h2, ih]
  · intro t
    show (normalizeMemoryType t ≠ "") ↔ _
    unfold normalizeMemoryType
    set u := String.mk (lowerStr (trimSpaceL t.data)) with hu
    by_cases h1 : u = "semantic"
    · simp [h1]
    · by_cases h2 : u = "procedural"
      · simp [h1, h2]
      · by_cases h3 : u = "episodic"
        · simp [h1, h2, h3]
        · simp [h1, h2, h3]


/-- A concrete extractor reply body: a JSON array with one valid fact,
one invalid-type fact and one blank-content fact (the literal scenario of
the specification). -/
def sampleReplyBody : List Char :=
  ("[\x7b\"type\":\"semantic\",\"content\":\"U likes coffee\"\x7d," ++
   "\x7b\"type\":\"invalid\",\"content\":\"x\"\x7d," ++
   "\x7b\"type\":\"semantic\",\"content\":\"   \"\x7d]").data

set_option maxRecDepth 100000 in
/-- Witness for claim C6 at the concrete reply: the fence-wrapped and the
bare reply parse identically, exactly one fact survives, and an
upper-case padded type normalises. -/
theorem parseExtractedFacts_fence_and_filter_witness :
    parseExtractedFactsL (wrapJsonFence sampleReplyBody) = parseExtractedFactsL sampleReplyBody
    ∧ parseExtractedFactsL (wrapPlainFence sampleReplyBody) = parseExtractedFactsL sampleReplyBody
    ∧ parseExtractedFactsL sampleReplyBody = .ok [⟨"semantic", "U likes coffee"⟩]
    ∧ validateFacts [⟨"semantic", "U likes coffee"⟩, ⟨"invalid", "x"⟩, ⟨"semantic", "   "⟩] =
        [⟨"semantic", "U likes coffee"⟩]
    ∧ normalizeMemoryType " SEMANTIC " ≠ "" := by
  have hT := parseExtractedFacts_fence_and_filter
  have ha := hT.1 sampleReplyBody (by decide) (by decide) (by decide)
  refine ⟨ha.1, ha.2, by decide, ?_, (hT.2.2 " SEMANTIC ").mpr (by decide)⟩
  rw [hT.2.1]
  decide

end SemanticRouter
